import Mathlib

/-! A shallow embedding of the SECD bytecode interpreter of
`src/runtime/secd.c`, with theorems checking the specification's claims.

The interpreter state is modelled explicitly: the code segment is a function
from (integer) indices to code words, the operand stack and the dump are
functions from indices to words resp. frames, and the cell heap backing
environments and closures is an arena of two-word cells addressed by positive
integers (address `0` is `NULL`).  Machine words are modelled as `Int`; the
arithmetic instructions reduce their results to the machine word width (see
`wrap`).  Faults (assertion failures, the invalid-opcode handler) are explicit
outcomes of the step function. -/

namespace SECD

/-- The null environment pointer (`NULL` in the C source): the empty
environment, and the placeholder element used by `LDRF`. -/
def NULL : Int := 0

/-- The cell heap backing environments and closures.  Modelled from the spec:
the cell allocator (`alloc_cell`) and the field accessors live in `secd.h`,
which is not among the sources.  Per the spec, cells are allocated from one
pool, each capable of holding either an environment node (element, next) or a
closure (code address, environment); we address cells by the positive integers
`1, 2, ...` in allocation order, so a cell address is never `NULL`. -/
structure Heap where
  mem : Int → Int × Int
  next : Nat

/-- Modelled from the spec: `alloc_cell` returns a fresh, uniquely addressable
cell (here: the next unused address, bumping the allocation counter). -/
def alloc_cell (h : Heap) : Heap × Int :=
  ({ h with next := h.next + 1 }, (h.next : Int) + 1)

/-- Modelled from the spec: read the element field of an environment node. -/
def GET_ELM (h : Heap) (p : Int) : Int := (h.mem p).1

/-- Modelled from the spec: read the next field of an environment node. -/
def GET_NEXT (h : Heap) (p : Int) : Int := (h.mem p).2

/-- Modelled from the spec: read the code-address field of a closure (the
first cell field, like an environment node's element). -/
def GET_CODE (h : Heap) (p : Int) : Int := (h.mem p).1

/-- Modelled from the spec: read the environment field of a closure (the
second cell field, like an environment node's next). -/
def GET_ENV (h : Heap) (p : Int) : Int := (h.mem p).2

/-- Modelled from the spec: write the element field of cell `p`. -/
def SET_ELM (h : Heap) (p v : Int) : Heap :=
  { h with mem := fun q => if q = p then (v, (h.mem q).2) else h.mem q }

/-- Modelled from the spec: write the next field of cell `p`. -/
def SET_NEXT (h : Heap) (p v : Int) : Heap :=
  { h with mem := fun q => if q = p then ((h.mem q).1, v) else h.mem q }

/-- Modelled from the spec: write the code-address field of closure `p`. -/
def SET_CODE (h : Heap) (p v : Int) : Heap := SET_ELM h p v

/-- Modelled from the spec: write the environment field of closure `p`. -/
def SET_ENV (h : Heap) (p v : Int) : Heap := SET_NEXT h p v

/-- `extend` from `secd.c`: cons a value onto an environment —
`nenv = alloc_cell(); SET_ELM(nenv, elm); SET_NEXT(nenv, env); return nenv`.
Returns the updated heap together with the new environment pointer. -/
def extend (h : Heap) (elm : Int) (env : Int) : Heap × Int :=
  let a := alloc_cell h
  (SET_NEXT (SET_ELM a.1 a.2 elm) a.2 env, a.2)

/-- `mkclosure` from `secd.c`:
`ptr = alloc_cell(); SET_CODE(ptr, pc); SET_ENV(ptr, env); return ptr`. -/
def mkclosure (h : Heap) (pc : Int) (env : Int) : Heap × Int :=
  let a := alloc_cell h
  (SET_ENV (SET_CODE a.1 a.2 pc) a.2 env, a.2)

/-- The walk of `lookup` from `secd.c`, on a natural-number count:
`while (n > 0) { assert(env != NULL); env = GET_NEXT(env); n--; }
return GET_ELM(env);`.
`none` is a fatal fault: either the `assert(env != NULL)` in the walk fails,
or the final element read dereferences the empty environment (modelled from
the spec: "the walk dereferences an empty tail" is a fatal bounds/consistency
fault; the accessor itself is in `secd.h`, not among the sources). -/
def lookupN (h : Heap) : Nat → Int → Option Int
  | 0, env => if env = NULL then none else some (GET_ELM h env)
  | n + 1, env => if env = NULL then none else lookupN h n (GET_NEXT h env)

/-- `lookup(n, env)` from `secd.c`; the C index is an `int`, and the walk
runs `n` times only when `n > 0`. -/
def lookup (h : Heap) (n : Int) (env : Int) : Option Int :=
  lookupN h n.toNat env

/-- `envRep h env vs` asserts that pointer `env` represents the value list
`vs` in heap `h`: the chain of cells starting at `env` is made of allocated
cells (addresses in `(0, h.next]`) holding the elements of `vs` in order and
ending at `NULL`. -/
def envRep (h : Heap) : Int → List Int → Bool
  | env, [] => env == NULL
  | env, v :: vs =>
      decide (0 < env ∧ env ≤ (h.next : Int)) && (GET_ELM h env == v) &&
      envRep h (GET_NEXT h env) vs

/-! ## The instruction set

Modelled from the spec: the numeric opcode encodings are defined in `secd.h`,
which is not among the sources; the interpreter only distinguishes opcodes by
`switch` case, so we fix distinct values. -/

/-- Load-constant. -/
def LDC : Int := 1
/-- Load-variable. -/
def LD : Int := 2
/-- Add. -/
def ADD : Int := 3
/-- Subtract. -/
def SUB : Int := 4
/-- Multiply. -/
def MUL : Int := 5
/-- Select (conditional branch). -/
def SEL : Int := 6
/-- Load-function (non-recursive closure). -/
def LDF : Int := 7
/-- Load-recursive-function. -/
def LDRF : Int := 8
/-- Apply. -/
def AP : Int := 9
/-- Return. -/
def RTN : Int := 10
/-- Join. -/
def JOIN : Int := 11
/-- Halt. -/
def HALT : Int := 12

/-- Whether an opcode is matched by some `switch` case of `interp`. -/
def recognized (op : Int) : Bool :=
  op == LDC || op == LD || op == ADD || op == SUB || op == MUL || op == SEL ||
  op == LDF || op == LDRF || op == AP || op == RTN || op == JOIN || op == HALT

/-- The machine configuration: the three segment capacities (`STACK_MAX`,
`DUMP_MAX`, `CODE_MAX`, configured in `secd.h`, which is not among the
sources) and the bit width `w` of the machine word `value_t`. -/
structure Config where
  STACK_MAX : Int
  DUMP_MAX : Int
  CODE_MAX : Int
  w : Nat

/-- Two's-complement reduction of an integer to a `w`-bit machine word:
the unique representative in `[-2^(w-1), 2^(w-1))` congruent mod `2^w`.
Modelled from the spec: `value_t` (defined in `secd.h`, not among the
sources) is a machine word, so the arithmetic instructions reduce their
results to its width. -/
def wrap (w : Nat) (x : Int) : Int :=
  (x + 2 ^ (w - 1)) % 2 ^ w - 2 ^ (w - 1)

/-- A dump frame (`dump_t`): a saved program counter and a saved environment
pointer.  A call frame (pushed by `AP`) fills both fields; a branch frame
(pushed by `SEL`) writes only the `pc` field. -/
structure Frame where
  pc : Int
  env : Int
deriving DecidableEq

/-- The registers and segments of `interp`: program counter, stack pointer,
dump pointer, environment pointer, and the operand stack, dump and heap they
index into. -/
structure State where
  pc : Int
  sp : Int
  dp : Int
  env : Int
  stack : Int → Int
  dump : Int → Frame
  heap : Heap

/-- Write one stack slot (`stack[i] = v`). -/
def upd (f : Int → Int) (i v : Int) : Int → Int :=
  fun j => if j = i then v else f j

/-- Write one dump slot. -/
def updD (d : Int → Frame) (i : Int) (fr : Frame) : Int → Frame :=
  fun j => if j = i then fr else d j

/-- The outcome of one iteration of the `interp` loop. -/
inductive Outcome where
  /-- Continue the loop in a new state. -/
  | next (s : State)
  /-- `HALT`: return the popped top of stack as the program's result. -/
  | halt (v : Int)
  /-- A fatal fault inside `lookup` (empty-tail dereference). -/
  | lookupFault
  /-- The `default` case: `invalid opcode <opcode> at program counter <pos>`
  is reported and the process exits with `exit(-1)`.  The fields record the
  two reported numbers. -/
  | invalidOp (opcode pos : Int)
  /-- One of the post-instruction register bounds asserts failed; the field
  records the (already mutated) state at the failure. -/
  | boundsFault (s : State)

/-- The process exit status passed by the invalid-opcode handler
(`exit(-1)`). -/
def invalidOpcodeExitStatus : Int := -1

/-- One execution of the `switch` body of `interp`: fetch the opcode at
`s.pc`, advance past it, and apply the matched case.  (The post-instruction
register bounds asserts are `checkBounds` below; `step` combines the two.) -/
def execInstr (cfg : Config) (code : Int → Int) (s : State) : Outcome :=
  let opcode := code s.pc
  let pc := s.pc + 1
  if opcode = LDC then
    .next { s with pc := pc + 1, sp := s.sp + 1,
                   stack := upd s.stack s.sp (code pc) }
  else if opcode = LD then
    match lookup s.heap (code pc) s.env with
    | none => .lookupFault
    | some v => .next { s with pc := pc + 1, sp := s.sp + 1,
                               stack := upd s.stack s.sp v }
  else if opcode = ADD then
    .next { s with pc := pc, sp := s.sp - 1,
                   stack := upd s.stack (s.sp - 2)
                     (wrap cfg.w (s.stack (s.sp - 1) + s.stack (s.sp - 2))) }
  else if opcode = SUB then
    .next { s with pc := pc, sp := s.sp - 1,
                   stack := upd s.stack (s.sp - 2)
                     (wrap cfg.w (s.stack (s.sp - 2) - s.stack (s.sp - 1))) }
  else if opcode = MUL then
    .next { s with pc := pc, sp := s.sp - 1,
                   stack := upd s.stack (s.sp - 2)
                     (wrap cfg.w (s.stack (s.sp - 1) * s.stack (s.sp - 2))) }
  else if opcode = SEL then
    .next { s with pc := if s.stack (s.sp - 1) = 0 then code pc else code (pc + 1),
                   sp := s.sp - 1, dp := s.dp + 1,
                   dump := updD s.dump s.dp { s.dump s.dp with pc := pc + 2 } }
  else if opcode = LDF then
    .next { s with pc := pc + 1, sp := s.sp + 1,
                   stack := upd s.stack s.sp (mkclosure s.heap (code pc) s.env).2,
                   heap := (mkclosure s.heap (code pc) s.env).1 }
  else if opcode = LDRF then
    let ne := extend s.heap NULL s.env
    let cl := mkclosure ne.1 (code pc) ne.2
    .next { s with pc := pc + 1, sp := s.sp + 1,
                   stack := upd s.stack s.sp cl.2,
                   heap := SET_ELM cl.1 ne.2 cl.2 }
  else if opcode = AP then
    let he := extend s.heap (s.stack (s.sp - 1)) (GET_ENV s.heap (s.stack (s.sp - 2)))
    .next { s with pc := GET_CODE he.1 (s.stack (s.sp - 2)),
                   sp := s.sp - 2, dp := s.dp + 1,
                   dump := updD s.dump s.dp ⟨pc, s.env⟩,
                   env := he.2, heap := he.1 }
  else if opcode = RTN then
    .next { s with dp := s.dp - 1, pc := (s.dump (s.dp - 1)).pc,
                   env := (s.dump (s.dp - 1)).env }
  else if opcode = JOIN then
    .next { s with dp := s.dp - 1, pc := (s.dump (s.dp - 1)).pc }
  else if opcode = HALT then
    .halt (s.stack (s.sp - 1))
  else
    .invalidOp opcode pc

/-- The post-instruction register checks of `interp`:
`assert(sp>=0 && sp<STACK_MAX); assert(dp>=0 && dp<DUMP_MAX);
assert(pc>=0 && pc<CODE_MAX);`. -/
def checkBounds (cfg : Config) (s : State) : Bool :=
  decide (0 ≤ s.sp ∧ s.sp < cfg.STACK_MAX ∧ 0 ≤ s.dp ∧ s.dp < cfg.DUMP_MAX ∧
          0 ≤ s.pc ∧ s.pc < cfg.CODE_MAX)

/-- One full iteration of the `interp` loop: the `switch` body, then — only
when the loop continues — the register bounds asserts.  `HALT` returns from
inside the `switch`, so it bypasses the asserts. -/
def step (cfg : Config) (code : Int → Int) (s : State) : Outcome :=
  match execInstr cfg code s with
  | .next s' => if checkBounds cfg s' then .next s' else .boundsFault s'
  | o => o

/-- Run the loop for at most `fuel` iterations (`none`: still running). -/
def run (cfg : Config) (code : Int → Int) : Nat → State → Option Outcome
  | 0, _ => none
  | fuel + 1, s =>
      match step cfg code s with
      | .next s' => run cfg code fuel s'
      | o => some o

/-- The heap at process start: no cell allocated yet. -/
def heap0 : Heap := ⟨fun _ => (0, 0), 0⟩

/-- The registers at entry of `interp` (`pc = sp = dp = 0`, `env = NULL`);
the segment contents start zeroed in the model. -/
def initState : State :=
  { pc := 0, sp := 0, dp := 0, env := NULL,
    stack := fun _ => 0, dump := fun _ => ⟨0, 0⟩, heap := heap0 }

/-- A code segment loaded with the given words from index `0`. -/
def mkCode (l : List Int) : Int → Int :=
  fun i => if 0 ≤ i then l.getD i.toNat 0 else 0

/-! ## Concrete machines used to instantiate the theorems -/

/-- A one-element environment used to instantiate the lookup theorems. -/
def heap1 : Heap := (extend heap0 5 NULL).1

/-- The pointer to the one-element environment in `heap1`. -/
def env1 : Int := (extend heap0 5 NULL).2

/-- A concrete configuration: generous capacities, 64-bit machine words. -/
def cfgW : Config := ⟨1000, 1000, 1000, 64⟩

/-- The state a continuing step outcome carries. -/
def nextOf (o : Outcome) : State :=
  match o with
  | .next s => s
  | _ => initState

/-- Program: apply a closure whose body is an immediate `RTN` at address 5. -/
def c1Code : Int → Int := mkCode [AP, 0, 0, 0, 0, RTN]

/-- A state about to `AP`: a closure with code address 5 on the stack below
the argument 42. -/
def c1S : State :=
  { pc := 0, sp := 2, dp := 0, env := NULL,
    stack := upd (upd (fun _ => 0) 0 (mkclosure heap0 5 NULL).2) 1 42,
    dump := fun _ => ⟨0, 0⟩, heap := (mkclosure heap0 5 NULL).1 }

/-- The state after the `AP` of `c1S`. -/
def c1S1 : State := nextOf (step cfgW c1Code c1S)

/-- The state after the matching `RTN`. -/
def c1T' : State := nextOf (step cfgW c1Code c1S1)

/-- Program: select on the condition, then branch (`then` = 3, `else` = 4,
join address 3). -/
def c2Code : Int → Int := mkCode [SEL, 3, 4, JOIN, JOIN]

/-- A state about to `SEL` with condition `0` on top of the stack. -/
def c2S : State := { initState with sp := 1 }

/-- The state after the `SEL` of `c2S`. -/
def c2S1 : State := nextOf (step cfgW c2Code c2S)

/-- The state after the matching `JOIN`. -/
def c2T' : State := nextOf (step cfgW c2Code c2S1)

/-- Program: build a recursive closure with body address 3. -/
def c3Code : Int → Int := mkCode [LDRF, 3]

/-- The state after the `LDRF` of `c3Code` from the initial state. -/
def c3S1 : State := nextOf (step cfgW c3Code initState)

/-- Program: the single unrecognized opcode 99. -/
def c7Code : Int → Int := mkCode [99]

/-- Program: push 7, halt. -/
def c8Code : Int → Int := mkCode [LDC, 7, HALT]

/-- The state after the `LDC` of `c8Code` from the initial state. -/
def c8S1 : State := nextOf (step cfgW c8Code initState)

/-- Program: halt immediately (on an empty operand stack). -/
def c9Code : Int → Int := mkCode [HALT]

/-- A state with an empty operand stack whose memory below the stack base
(index `-1`) holds 77. -/
def c9S : State := { initState with stack := upd (fun _ => 0) (-1) 77 }

/-! ## Environment and lookup lemmas -/

theorem envRep_nil {h : Heap} {env : Int} :
    envRep h env [] = true ↔ env = NULL := by
  simp [envRep]

theorem envRep_cons {h : Heap} {env v : Int} {vs : List Int} :
    envRep h env (v :: vs) = true ↔
      (0 < env ∧ env ≤ (h.next : Int)) ∧ GET_ELM h env = v ∧
        envRep h (GET_NEXT h env) vs = true := by
  simp [envRep, and_assoc]

/-- A heap that agrees with `h` on every allocated address gives the same
`lookupN` results on any environment represented in `h`. -/
theorem lookupN_congr {h h' : Heap} {env : Int} {vs : List Int}
    (hag : ∀ p : Int, 0 < p → p ≤ (h.next : Int) → h'.mem p = h.mem p)
    (hrep : envRep h env vs = true) :
    ∀ n : Nat, lookupN h' n env = lookupN h n env := by
  induction vs generalizing env with
  | nil =>
      intro n
      have he : env = NULL := envRep_nil.mp hrep
      cases n <;> simp [lookupN, he]
  | cons v vs ih =>
      intro n
      obtain ⟨⟨hpos, hle⟩, _helm, htail⟩ := envRep_cons.mp hrep
      have hne : ¬ env = NULL := by
        simp only [NULL]; omega
      have hmem : h'.mem env = h.mem env := hag env hpos hle
      cases n with
      | zero => simp [lookupN, hne, GET_ELM, hmem]
      | succ n =>
          have hnext : GET_NEXT h' env = GET_NEXT h env := by
            simp [GET_NEXT, hmem]
          simp [lookupN, hne, hnext, ih htail n]

/-- `extend` writes only the freshly allocated cell: every previously
allocated address is unchanged. -/
theorem extend_mem_agree (h : Heap) (v env : Int) :
    ∀ p : Int, 0 < p → p ≤ (h.next : Int) → (extend h v env).1.mem p = h.mem p := by
  intro p _ hle
  have hne : ¬ p = (h.next : Int) + 1 := by omega
  simp [extend, alloc_cell, SET_NEXT, SET_ELM, hne]

/-- The fresh cell written by `extend` holds the consed value and the old
environment pointer. -/
theorem extend_mem_new (h : Heap) (v env : Int) :
    (extend h v env).1.mem (extend h v env).2 = (v, env) := by
  simp [extend, alloc_cell, SET_NEXT, SET_ELM]

theorem extend_next (h : Heap) (v env : Int) :
    (extend h v env).1.next = h.next + 1 := by
  simp [extend, alloc_cell, SET_NEXT, SET_ELM]

theorem extend_ptr (h : Heap) (v env : Int) :
    (extend h v env).2 = (h.next : Int) + 1 := by
  simp [extend, alloc_cell]

/-- `mkclosure` writes only the freshly allocated cell. -/
theorem mkclosure_mem_agree (h : Heap) (pc env : Int) :
    ∀ p : Int, ¬ p = (h.next : Int) + 1 → (mkclosure h pc env).1.mem p = h.mem p := by
  intro p hne
  simp [mkclosure, alloc_cell, SET_ENV, SET_CODE, SET_NEXT, SET_ELM, hne]

/-- The fresh cell written by `mkclosure` holds the code address and the
captured environment. -/
theorem mkclosure_mem_new (h : Heap) (pc env : Int) :
    (mkclosure h pc env).1.mem (mkclosure h pc env).2 = (pc, env) := by
  simp [mkclosure, alloc_cell, SET_ENV, SET_CODE, SET_NEXT, SET_ELM]

theorem mkclosure_next (h : Heap) (pc env : Int) :
    (mkclosure h pc env).1.next = h.next + 1 := by
  simp [mkclosure, alloc_cell, SET_ENV, SET_CODE, SET_NEXT, SET_ELM]

theorem mkclosure_ptr (h : Heap) (pc env : Int) :
    (mkclosure h pc env).2 = (h.next : Int) + 1 := by
  simp [mkclosure, alloc_cell]

/-- An environment representation survives an `extend` (the new cell is
outside the old chain). -/
theorem envRep_extend {h : Heap} {env : Int} {vs : List Int}
    (hrep : envRep h env vs = true) (v e : Int) :
    envRep (extend h v e).1 env vs = true := by
  induction vs generalizing env with
  | nil => simpa [envRep_nil] using envRep_nil.mp hrep
  | cons w vs ih =>
      obtain ⟨⟨hpos, hle⟩, helm, htail⟩ := envRep_cons.mp hrep
      have hmem := extend_mem_agree h v e env hpos hle
      refine envRep_cons.mpr ⟨⟨hpos, ?_⟩, ?_, ?_⟩
      · rw [extend_next]; push_cast; omega
      · simpa [GET_ELM, hmem] using helm
      · have hnext : GET_NEXT (extend h v e).1 env = GET_NEXT h env := by
          simp [GET_NEXT, hmem]
        rw [hnext]; exact ih htail

/-- `lookup` walks the list representation. -/
theorem lookupN_envRep {h : Heap} {env : Int} {vs : List Int}
    (hrep : envRep h env vs = true) :
    ∀ n : Nat, n < vs.length → lookupN h n env = vs.get? n := by
  induction vs generalizing env with
  | nil => intro n hn; simp at hn
  | cons v vs ih =>
      intro n hn
      obtain ⟨⟨hpos, _hle⟩, helm, htail⟩ := envRep_cons.mp hrep
      have hne : ¬ env = NULL := by simp only [NULL]; omega
      cases n with
      | zero => simp [lookupN, hne, helm]
      | succ n =>
          have hn' : n < vs.length := by simpa using hn
          simp [lookupN, hne, ih htail n hn']

/-- Walking past the end of a represented environment always faults. -/
theorem lookupN_none_of_ge {h : Heap} {env : Int} {vs : List Int}
    (hrep : envRep h env vs = true) :
    ∀ n : Nat, vs.length ≤ n → lookupN h n env = none := by
  induction vs generalizing env with
  | nil =>
      intro n _
      have he : env = NULL := envRep_nil.mp hrep
      cases n <;> simp [lookupN, he]
  | cons v vs ih =>
      intro n hn
      obtain ⟨⟨hpos, _⟩, _, htail⟩ := envRep_cons.mp hrep
      have hne : ¬ env = NULL := by simp only [NULL]; omega
      cases n with
      | zero => simp at hn
      | succ n =>
          have hn' : vs.length ≤ n := by simpa using hn
          simp [lookupN, hne, ih htail n hn']

/-- C5: `lookup(0, extend(v, env)) = v`; `lookup(n+1, extend(v, env)) =
lookup(n, env)` (for an index within the environment, as the spec
preconditions); and `extend` never mutates `env` — every previously
allocated cell is left unchanged. -/
theorem C5_extend_lookup (h : Heap) (v env : Int) (vs : List Int) (n : Nat)
    (hrep : envRep h env vs = true) (hn : n < vs.length) :
    lookup (extend h v env).1 0 (extend h v env).2 = some v ∧
    lookup (extend h v env).1 ((n : Int) + 1) (extend h v env).2 =
      lookup h (n : Int) env ∧
    (∀ p : Int, 0 < p → p ≤ (h.next : Int) → (extend h v env).1.mem p = h.mem p) := by
  have hptr := extend_ptr h v env
  have hne : ¬ (extend h v env).2 = NULL := by
    rw [hptr]; simp only [NULL]; omega
  refine ⟨?_, ?_, extend_mem_agree h v env⟩
  · simp [lookup, lookupN, hne, GET_ELM, extend_mem_new]
  · have htn : ((n : Int) + 1).toNat = n + 1 := by omega
    have htn' : ((n : Int)).toNat = n := by omega
    rw [lookup, lookup, htn, htn']
    have hnext : GET_NEXT (extend h v env).1 (extend h v env).2 = env := by
      simp [GET_NEXT, extend_mem_new]
    rw [lookupN, if_neg hne, hnext]
    exact lookupN_congr (extend_mem_agree h v env) hrep n

theorem C5_extend_lookup_witness :
    lookup (extend heap1 9 env1).1 0 (extend heap1 9 env1).2 = some 9 := by
  exact (C5_extend_lookup heap1 9 env1 [5] 0 (by decide) (by decide)).1

/-- C6: looking up any index at or past the environment's length is a fatal
fault (`none`), never a silently returned value. -/
theorem C6_lookup_out_of_range (h : Heap) (env n : Int) (vs : List Int)
    (hrep : envRep h env vs = true) (hn : (vs.length : Int) ≤ n) :
    lookup h n env = none := by
  have : vs.length ≤ n.toNat := by omega
  exact lookupN_none_of_ge hrep n.toNat this

theorem C6_lookup_out_of_range_witness : lookup heap1 1 env1 = none := by
  exact C6_lookup_out_of_range heap1 env1 1 [5] (by decide) (by decide)

/-! ## Step lemmas -/

theorem upd_same (f : Int → Int) (i v : Int) : upd f i v i = v := by
  simp [upd]

/-- The heap shape built by `LDRF` — extend with a placeholder, close over the
new environment, back-patch the new node — ties the knot: index 0 of the
closure's captured environment is the closure itself. -/
theorem ldrf_knot (h : Heap) (t env : Int) :
    lookup
      (SET_ELM (mkclosure (extend h NULL env).1 t (extend h NULL env).2).1
        (extend h NULL env).2
        (mkclosure (extend h NULL env).1 t (extend h NULL env).2).2)
      0
      (GET_ENV
        (SET_ELM (mkclosure (extend h NULL env).1 t (extend h NULL env).2).1
          (extend h NULL env).2
          (mkclosure (extend h NULL env).1 t (extend h NULL env).2).2)
        (mkclosure (extend h NULL env).1 t (extend h NULL env).2).2)
      = some (mkclosure (extend h NULL env).1 t (extend h NULL env).2).2 := by
  set E := extend h NULL env with hE
  set M := mkclosure E.1 t E.2 with hM
  set H := SET_ELM M.1 E.2 M.2 with hH
  have ha : E.2 = (h.next : Int) + 1 := by rw [hE]; exact extend_ptr h NULL env
  have hcn : M.2 = (h.next : Int) + 2 := by
    rw [hM, mkclosure_ptr, hE, extend_next]
    push_cast
    ring
  have hne : ¬ M.2 = E.2 := by rw [ha, hcn]; omega
  have hnz : ¬ E.2 = NULL := by rw [ha]; simp only [NULL]; omega
  have hmemM : M.1.mem M.2 = (t, E.2) := by rw [hM]; exact mkclosure_mem_new _ _ _
  have hgenv : GET_ENV H M.2 = E.2 := by
    rw [hH]
    simp only [GET_ENV, SET_ELM]
    rw [if_neg hne, hmemM]
  have hgelm : GET_ELM H E.2 = M.2 := by
    rw [hH]
    simp [GET_ELM, SET_ELM]
  rw [hgenv]
  simp only [lookup, Int.toNat_zero, lookupN]
  rw [if_neg hnz, hgelm]

theorem step_next_iff {cfg : Config} {code : Int → Int} {s s' : State} :
    step cfg code s = .next s' ↔
      execInstr cfg code s = .next s' ∧ checkBounds cfg s' = true := by
  cases h : execInstr cfg code s with
  | next s1 =>
      simp only [step, h]
      by_cases hb : checkBounds cfg s1 = true
      · simp only [hb, if_true]
        constructor
        · intro h'
          injection h' with h'
          subst h'
          exact ⟨rfl, hb⟩
        · rintro ⟨h', _⟩
          exact h'
      · simp only [Bool.not_eq_true] at hb
        simp only [hb, Bool.false_eq_true, if_false]
        constructor
        · intro h'
          exact Outcome.noConfusion h'
        · rintro ⟨h', hb'⟩
          injection h' with h'
          subst h'
          rw [hb] at hb'
          cases hb'
  | halt v => simp [step, h]
  | lookupFault => simp [step, h]
  | invalidOp a b => simp [step, h]
  | boundsFault s1 => simp [step, h]

theorem execInstr_LDC {cfg : Config} {code : Int → Int} {s : State}
    (h : code s.pc = LDC) :
    execInstr cfg code s = .next
      { s with pc := s.pc + 1 + 1, sp := s.sp + 1,
               stack := upd s.stack s.sp (code (s.pc + 1)) } := by
  simp [execInstr, h, LDC, LD, ADD, SUB, MUL, SEL, LDF, LDRF, AP, RTN, JOIN, HALT]

theorem execInstr_LD {cfg : Config} {code : Int → Int} {s : State} {v : Int}
    (h : code s.pc = LD) (hv : lookup s.heap (code (s.pc + 1)) s.env = some v) :
    execInstr cfg code s = .next
      { s with pc := s.pc + 1 + 1, sp := s.sp + 1,
               stack := upd s.stack s.sp v } := by
  simp [execInstr, h, hv, LDC, LD, ADD, SUB, MUL, SEL, LDF, LDRF, AP, RTN, JOIN, HALT]

theorem execInstr_ADD {cfg : Config} {code : Int → Int} {s : State}
    (h : code s.pc = ADD) :
    execInstr cfg code s = .next
      { s with pc := s.pc + 1, sp := s.sp - 1,
               stack := upd s.stack (s.sp - 2)
                 (wrap cfg.w (s.stack (s.sp - 1) + s.stack (s.sp - 2))) } := by
  simp [execInstr, h, LDC, LD, ADD, SUB, MUL, SEL, LDF, LDRF, AP, RTN, JOIN, HALT]

theorem execInstr_SUB {cfg : Config} {code : Int → Int} {s : State}
    (h : code s.pc = SUB) :
    execInstr cfg code s = .next
      { s with pc := s.pc + 1, sp := s.sp - 1,
               stack := upd s.stack (s.sp - 2)
                 (wrap cfg.w (s.stack (s.sp - 2) - s.stack (s.sp - 1))) } := by
  simp [execInstr, h, LDC, LD, ADD, SUB, MUL, SEL, LDF, LDRF, AP, RTN, JOIN, HALT]

theorem execInstr_MUL {cfg : Config} {code : Int → Int} {s : State}
    (h : code s.pc = MUL) :
    execInstr cfg code s = .next
      { s with pc := s.pc + 1, sp := s.sp - 1,
               stack := upd s.stack (s.sp - 2)
                 (wrap cfg.w (s.stack (s.sp - 1) * s.stack (s.sp - 2))) } := by
  simp [execInstr, h, LDC, LD, ADD, SUB, MUL, SEL, LDF, LDRF, AP, RTN, JOIN, HALT]

theorem execInstr_SEL {cfg : Config} {code : Int → Int} {s : State}
    (h : code s.pc = SEL) :
    execInstr cfg code s = .next
      { s with
        pc := if s.stack (s.sp - 1) = 0 then code (s.pc + 1) else code (s.pc + 1 + 1),
        sp := s.sp - 1, dp := s.dp + 1,
        dump := updD s.dump s.dp { s.dump s.dp with pc := s.pc + 1 + 2 } } := by
  simp [execInstr, h, LDC, LD, ADD, SUB, MUL, SEL, LDF, LDRF, AP, RTN, JOIN, HALT]

theorem execInstr_LDF {cfg : Config} {code : Int → Int} {s : State}
    (h : code s.pc = LDF) :
    execInstr cfg code s = .next
      { s with pc := s.pc + 1 + 1, sp := s.sp + 1,
               stack := upd s.stack s.sp (mkclosure s.heap (code (s.pc + 1)) s.env).2,
               heap := (mkclosure s.heap (code (s.pc + 1)) s.env).1 } := by
  simp [execInstr, h, LDC, LD, ADD, SUB, MUL, SEL, LDF, LDRF, AP, RTN, JOIN, HALT]

theorem execInstr_LDRF {cfg : Config} {code : Int → Int} {s : State}
    (h : code s.pc = LDRF) :
    execInstr cfg code s = .next
      { s with pc := s.pc + 1 + 1, sp := s.sp + 1,
               stack := upd s.stack s.sp
                 (mkclosure (extend s.heap NULL s.env).1 (code (s.pc + 1))
                   (extend s.heap NULL s.env).2).2,
               heap := SET_ELM
                 (mkclosure (extend s.heap NULL s.env).1 (code (s.pc + 1))
                   (extend s.heap NULL s.env).2).1
                 (extend s.heap NULL s.env).2
                 (mkclosure (extend s.heap NULL s.env).1 (code (s.pc + 1))
                   (extend s.heap NULL s.env).2).2 } := by
  simp [execInstr, h, LDC, LD, ADD, SUB, MUL, SEL, LDF, LDRF, AP, RTN, JOIN, HALT]

theorem execInstr_AP {cfg : Config} {code : Int → Int} {s : State}
    (h : code s.pc = AP) :
    execInstr cfg code s = .next
      { s with
        pc := GET_CODE
          (extend s.heap (s.stack (s.sp - 1)) (GET_ENV s.heap (s.stack (s.sp - 2)))).1
          (s.stack (s.sp - 2)),
        sp := s.sp - 2, dp := s.dp + 1,
        dump := updD s.dump s.dp ⟨s.pc + 1, s.env⟩,
        env := (extend s.heap (s.stack (s.sp - 1))
          (GET_ENV s.heap (s.stack (s.sp - 2)))).2,
        heap := (extend s.heap (s.stack (s.sp - 1))
          (GET_ENV s.heap (s.stack (s.sp - 2)))).1 } := by
  simp [execInstr, h, LDC, LD, ADD, SUB, MUL, SEL, LDF, LDRF, AP, RTN, JOIN, HALT]

theorem execInstr_RTN {cfg : Config} {code : Int → Int} {s : State}
    (h : code s.pc = RTN) :
    execInstr cfg code s = .next
      { s with dp := s.dp - 1,
               pc := (s.dump (s.dp - 1)).pc, env := (s.dump (s.dp - 1)).env } := by
  simp [execInstr, h, LDC, LD, ADD, SUB, MUL, SEL, LDF, LDRF, AP, RTN, JOIN, HALT]

theorem execInstr_JOIN {cfg : Config} {code : Int → Int} {s : State}
    (h : code s.pc = JOIN) :
    execInstr cfg code s = .next
      { s with dp := s.dp - 1,
               pc := (s.dump (s.dp - 1)).pc } := by
  simp [execInstr, h, LDC, LD, ADD, SUB, MUL, SEL, LDF, LDRF, AP, RTN, JOIN, HALT]

theorem execInstr_HALT {cfg : Config} {code : Int → Int} {s : State}
    (h : code s.pc = HALT) :
    execInstr cfg code s = .halt (s.stack (s.sp - 1)) := by
  simp [execInstr, h, LDC, LD, ADD, SUB, MUL, SEL, LDF, LDRF, AP, RTN, JOIN, HALT]

theorem execInstr_invalid {cfg : Config} {code : Int → Int} {s : State}
    (h : recognized (code s.pc) = false) :
    execInstr cfg code s = .invalidOp (code s.pc) (s.pc + 1) := by
  simp only [recognized, Bool.or_eq_false_iff, beq_eq_false_iff_ne, ne_eq] at h
  obtain ⟨⟨⟨⟨⟨⟨⟨⟨⟨⟨⟨h1, h2⟩, h3⟩, h4⟩, h5⟩, h6⟩, h7⟩, h8⟩, h9⟩, h10⟩, h11⟩, h12⟩ := h
  simp [execInstr, h1, h2, h3, h4, h5, h6, h7, h8, h9, h10, h11, h12]

/-! ## The claims about the dispatch loop -/

/-- C1: `AP` pushes a call frame holding the return address (the instruction
after the `AP`) and the caller's environment, and enters the closure's body
with the closure's environment extended by the argument; the matching `RTN` —
executed in any later state whose dump top is still that frame, with an
arbitrary callee environment — restores exactly the caller's `pc` (the
instruction after the `AP`) and exactly the caller's environment. -/
theorem C1_apply_return_roundtrip (cfg : Config) (code : Int → Int)
    (s s1 t t' : State)
    (hap : code s.pc = AP)
    (h1 : step cfg code s = .next s1)
    (hrtn : code t.pc = RTN)
    (hdp : t.dp = s1.dp)
    (hfr : t.dump s.dp = s1.dump s.dp)
    (h2 : step cfg code t = .next t') :
    s1.dp = s.dp + 1 ∧
    s1.dump s.dp = ⟨s.pc + 1, s.env⟩ ∧
    s1.pc = GET_CODE s1.heap (s.stack (s.sp - 2)) ∧
    s1.env = (extend s.heap (s.stack (s.sp - 1))
      (GET_ENV s.heap (s.stack (s.sp - 2)))).2 ∧
    t'.pc = s.pc + 1 ∧ t'.env = s.env := by
  have e1 := (step_next_iff.mp h1).1
  rw [execInstr_AP hap] at e1
  injection e1 with e1
  subst e1
  have e2 := (step_next_iff.mp h2).1
  rw [execInstr_RTN hrtn] at e2
  injection e2 with e2
  subst e2
  have hdp2 : t.dp = s.dp + 1 := hdp
  have hdp' : t.dp - 1 = s.dp := by omega
  have hfr2 : t.dump s.dp = ⟨s.pc + 1, s.env⟩ := hfr.trans (by simp [updD])
  refine ⟨rfl, by simp [updD], rfl, rfl, ?_, ?_⟩
  · show (t.dump (t.dp - 1)).pc = s.pc + 1
    rw [hdp', hfr2]
  · show (t.dump (t.dp - 1)).env = s.env
    rw [hdp', hfr2]

theorem C1_apply_return_roundtrip_witness :
    c1T'.pc = c1S.pc + 1 ∧ c1T'.env = c1S.env := by
  have h := C1_apply_return_roundtrip cfgW c1Code c1S c1S1 c1S1 c1T'
    rfl rfl rfl rfl rfl rfl
  exact ⟨h.2.2.2.2.1, h.2.2.2.2.2⟩

/-- C2: `SEL` pops the condition, pushes a branch frame whose join address is
the instruction after the two branch-address operands, jumps to the first
operand when the condition is `0` and to the second otherwise, and leaves the
environment untouched; the matching `JOIN` — in any later state whose dump
top still holds that join address — restores only the `pc` (to the common
join address), leaving the environment untouched. -/
theorem C2_select_join (cfg : Config) (code : Int → Int)
    (s s1 t t' : State)
    (hsel : code s.pc = SEL)
    (h1 : step cfg code s = .next s1)
    (hjoin : code t.pc = JOIN)
    (hdp : t.dp = s1.dp)
    (hfr : (t.dump s.dp).pc = (s1.dump s.dp).pc)
    (h2 : step cfg code t = .next t') :
    (s.stack (s.sp - 1) = 0 → s1.pc = code (s.pc + 1)) ∧
    (s.stack (s.sp - 1) ≠ 0 → s1.pc = code (s.pc + 2)) ∧
    s1.dp = s.dp + 1 ∧
    (s1.dump s.dp).pc = s.pc + 3 ∧
    s1.env = s.env ∧
    t'.pc = s.pc + 3 ∧ t'.env = t.env := by
  have e1 := (step_next_iff.mp h1).1
  rw [execInstr_SEL hsel] at e1
  injection e1 with e1
  subst e1
  have e2 := (step_next_iff.mp h2).1
  rw [execInstr_JOIN hjoin] at e2
  injection e2 with e2
  subst e2
  have hdp2 : t.dp = s.dp + 1 := hdp
  have hdp' : t.dp - 1 = s.dp := by omega
  have hfr2 : (t.dump s.dp).pc = s.pc + 1 + 2 := hfr.trans (by simp [updD])
  have h12 : s.pc + 1 + 1 = s.pc + 2 := by omega
  refine ⟨fun hc => ?_, fun hc => ?_, rfl, ?_, rfl, ?_, rfl⟩
  · show (if s.stack (s.sp - 1) = 0 then code (s.pc + 1) else code (s.pc + 1 + 1))
        = code (s.pc + 1)
    rw [if_pos hc]
  · show (if s.stack (s.sp - 1) = 0 then code (s.pc + 1) else code (s.pc + 1 + 1))
        = code (s.pc + 2)
    rw [if_neg hc, h12]
  · show (updD s.dump s.dp { s.dump s.dp with pc := s.pc + 1 + 2 } s.dp).pc
        = s.pc + 3
    simp only [updD, if_pos rfl]
    show s.pc + 1 + 2 = s.pc + 3
    omega
  · show (t.dump (t.dp - 1)).pc = s.pc + 3
    rw [hdp', hfr2]
    omega

theorem C2_select_join_witness :
    c2T'.pc = c2S.pc + 3 ∧ c2T'.env = c2S1.env := by
  have h := C2_select_join cfgW c2Code c2S c2S1 c2S1 c2T'
    rfl rfl rfl rfl rfl rfl
  exact ⟨h.2.2.2.2.2.1, h.2.2.2.2.2.2⟩

/-- C3: the closure pushed by `LDRF` captures an environment whose node 0 was
back-patched to the closure itself, so an index-0 lookup in its captured
environment (by the machine's one ordinary `lookup`) yields a reference equal
to the closure. -/
theorem C3_recursive_closure_self (cfg : Config) (code : Int → Int)
    (s s1 : State)
    (h : code s.pc = LDRF)
    (h1 : step cfg code s = .next s1) :
    s1.sp = s.sp + 1 ∧
    lookup s1.heap 0 (GET_ENV s1.heap (s1.stack s.sp)) = some (s1.stack s.sp) := by
  have e1 := (step_next_iff.mp h1).1
  rw [execInstr_LDRF h] at e1
  injection e1 with e1
  subst e1
  refine ⟨rfl, ?_⟩
  simp only [upd_same]
  exact ldrf_knot s.heap (code (s.pc + 1)) s.env

theorem C3_recursive_closure_self_witness :
    lookup c3S1.heap 0 (GET_ENV c3S1.heap (c3S1.stack 0)) = some (c3S1.stack 0) := by
  exact (C3_recursive_closure_self cfgW c3Code initState c3S1 rfl rfl).2

/-- C7 counterexample: for the one-instruction program `[99]`, the reported
diagnostic pair is `(99, 1)` — the opcode together with the program counter
after fetching it — not `(99, 0)` with the opcode's own position `0`. -/
theorem C7_counterexample :
    step cfgW c7Code initState = .invalidOp 99 1 ∧
    ¬ step cfgW c7Code initState = .invalidOp 99 0 := by
  refine ⟨rfl, fun hc => ?_⟩
  have : Outcome.invalidOp 99 1 = .invalidOp 99 0 := by
    rw [← hc]; rfl
  injection this with _ h0
  cases h0

/-- C7 (amended): an unrecognized opcode makes the machine report the opcode
value together with the program counter after fetching it (one past the
opcode's position), terminate with the non-zero exit status `exit(-1)`, and
produce no result; execution is never resumed. -/
theorem C7_invalid_opcode (cfg : Config) (code : Int → Int) (s : State)
    (h : recognized (code s.pc) = false) :
    step cfg code s = .invalidOp (code s.pc) (s.pc + 1) ∧
    invalidOpcodeExitStatus ≠ 0 ∧
    (∀ s', ¬ step cfg code s = .next s') ∧
    (∀ v, ¬ step cfg code s = .halt v) := by
  have hs : step cfg code s = .invalidOp (code s.pc) (s.pc + 1) := by
    unfold step
    rw [execInstr_invalid h]
  refine ⟨hs, by norm_num [invalidOpcodeExitStatus], ?_, ?_⟩
  · intro s' hc
    rw [hs] at hc
    exact Outcome.noConfusion hc
  · intro v hc
    rw [hs] at hc
    exact Outcome.noConfusion hc

theorem C7_invalid_opcode_witness :
    step cfgW c7Code initState = .invalidOp 99 1 := by
  exact (C7_invalid_opcode cfgW c7Code initState (by decide)).1

/-- C8: whenever a step continues the loop, the post-instruction asserts have
validated `0 ≤ sp < STACK_MAX`, `0 ≤ dp < DUMP_MAX`, `0 ≤ pc < CODE_MAX` on
the resulting state; and the check runs only after the instruction's
mutation — a failing check faults with the already fully mutated state. -/
theorem C8_register_bounds (cfg : Config) (code : Int → Int) (s s' : State) :
    (step cfg code s = .next s' →
      0 ≤ s'.sp ∧ s'.sp < cfg.STACK_MAX ∧ 0 ≤ s'.dp ∧ s'.dp < cfg.DUMP_MAX ∧
      0 ≤ s'.pc ∧ s'.pc < cfg.CODE_MAX) ∧
    (execInstr cfg code s = .next s' → checkBounds cfg s' = false →
      step cfg code s = .boundsFault s') := by
  constructor
  · intro h
    have hb := (step_next_iff.mp h).2
    simpa [checkBounds] using hb
  · intro he hb
    simp only [step, he]
    rw [hb]
    rfl

theorem C8_register_bounds_witness :
    0 ≤ c8S1.sp ∧ c8S1.sp < cfgW.STACK_MAX ∧ 0 ≤ c8S1.dp ∧
      c8S1.dp < cfgW.DUMP_MAX ∧ 0 ≤ c8S1.pc ∧ c8S1.pc < cfgW.CODE_MAX := by
  exact (C8_register_bounds cfgW c8Code initState c8S1).1 rfl

/-- C9: `HALT` returns the popped top of stack immediately, bypassing the
register bounds validation: in particular with `sp = 0` it yields the word
below the stack base (index `-1`) as the result, with no fault reported. -/
theorem C9_halt_bypasses_check (cfg : Config) (code : Int → Int) (s : State)
    (h : code s.pc = HALT) :
    step cfg code s = .halt (s.stack (s.sp - 1)) ∧
    (s.sp = 0 → step cfg code s = .halt (s.stack (-1))) := by
  have hs : step cfg code s = .halt (s.stack (s.sp - 1)) := by
    unfold step
    rw [execInstr_HALT h]
  refine ⟨hs, fun h0 => ?_⟩
  rw [hs, h0]
  norm_num

theorem C9_halt_bypasses_check_witness :
    step cfgW c9Code c9S = .halt 77 := by
  exact (C9_halt_bypasses_check cfgW c9Code c9S rfl).2 rfl

/-! ## Whole-program runs: the arithmetic instructions -/

theorem run_next (cfg : Config) (code : Int → Int) (fuel : Nat) (s s' : State)
    (h : step cfg code s = .next s') :
    run cfg code (fuel + 1) s = run cfg code fuel s' := by
  simp only [run, h]

theorem run_halt (cfg : Config) (code : Int → Int) (fuel : Nat) (s : State)
    (v : Int) (h : step cfg code s = .halt v) :
    run cfg code (fuel + 1) s = some (.halt v) := by
  simp only [run, h]

/-- `wrap` preserves the residue mod `2^w`. -/
theorem wrap_emod (w : Nat) (x : Int) : wrap w x % 2 ^ w = x % 2 ^ w := by
  have h : wrap w x = x + 2 ^ w * (-((x + 2 ^ (w - 1)) / 2 ^ w)) := by
    unfold wrap
    rw [Int.emod_def]
    ring
  rw [h, Int.add_mul_emod_self_left]

/-- `wrap` is the identity on machine-representable values. -/
theorem wrap_eq_of_range (w : Nat) (x : Int) (hw : 1 ≤ w)
    (h1 : -(2 ^ (w - 1)) ≤ x) (h2 : x < 2 ^ (w - 1)) : wrap w x = x := by
  have hm : (2 : Int) ^ w = 2 ^ (w - 1) * 2 := by
    conv_lhs => rw [show w = (w - 1) + 1 by omega]
    rw [pow_succ]
  have h0 : 0 ≤ x + 2 ^ (w - 1) := by omega
  have hlt : x + 2 ^ (w - 1) < 2 ^ w := by
    rw [hm]; omega
  unfold wrap
  rw [Int.emod_eq_of_lt h0 hlt]
  ring

/-- Running `LDC a; LDC b; <op>; HALT` for an arithmetic `op` halts with the
word-wrapped result of the instruction's stack arithmetic. -/
theorem run_binop_prog (cfg : Config) (op a b r : Int)
    (hS : 3 ≤ cfg.STACK_MAX) (hD : 1 ≤ cfg.DUMP_MAX) (hC : 6 ≤ cfg.CODE_MAX)
    (hop : (op = ADD ∧ r = wrap cfg.w (b + a)) ∨
           (op = SUB ∧ r = wrap cfg.w (a - b)) ∨
           (op = MUL ∧ r = wrap cfg.w (b * a))) :
    run cfg (mkCode [LDC, a, LDC, b, op, HALT]) 4 initState = some (.halt r) := by
  have e1 : execInstr cfg (mkCode [LDC, a, LDC, b, op, HALT]) initState = .next
      { initState with pc := 2, sp := 1, stack := upd initState.stack 0 a } := by
    rw [execInstr_LDC rfl]
    rfl
  have cb1 : checkBounds cfg
      { initState with pc := 2, sp := 1, stack := upd initState.stack 0 a } = true := by
    simp only [checkBounds, initState, decide_eq_true_eq]
    omega
  have h1 : step cfg (mkCode [LDC, a, LDC, b, op, HALT]) initState = .next
      { initState with pc := 2, sp := 1, stack := upd initState.stack 0 a } :=
    step_next_iff.mpr ⟨e1, cb1⟩
  have e2 : execInstr cfg (mkCode [LDC, a, LDC, b, op, HALT])
      { initState with pc := 2, sp := 1, stack := upd initState.stack 0 a } = .next
      { initState with pc := 4, sp := 2,
                       stack := upd (upd initState.stack 0 a) 1 b } := by
    rw [execInstr_LDC rfl]
    rfl
  have cb2 : checkBounds cfg
      { initState with pc := 4, sp := 2,
                       stack := upd (upd initState.stack 0 a) 1 b } = true := by
    simp only [checkBounds, initState, decide_eq_true_eq]
    omega
  have h2 : step cfg (mkCode [LDC, a, LDC, b, op, HALT])
      { initState with pc := 2, sp := 1, stack := upd initState.stack 0 a } = .next
      { initState with pc := 4, sp := 2,
                       stack := upd (upd initState.stack 0 a) 1 b } :=
    step_next_iff.mpr ⟨e2, cb2⟩
  rcases hop with ⟨hop', hr⟩ | ⟨hop', hr⟩ | ⟨hop', hr⟩ <;> subst hop' <;> subst hr
  · -- ADD
    have e3 : execInstr cfg (mkCode [LDC, a, LDC, b, ADD, HALT])
        { initState with pc := 4, sp := 2,
                         stack := upd (upd initState.stack 0 a) 1 b } = .next
        { initState with pc := 5, sp := 1,
                         stack := upd (upd (upd initState.stack 0 a) 1 b) 0
                           (wrap cfg.w (b + a)) } := by
      rw [execInstr_ADD rfl]
      rfl
    have cb3 : checkBounds cfg
        { initState with pc := 5, sp := 1,
                         stack := upd (upd (upd initState.stack 0 a) 1 b) 0
                           (wrap cfg.w (b + a)) } = true := by
      simp only [checkBounds, initState, decide_eq_true_eq]
      omega
    have h3 := step_next_iff.mpr ⟨e3, cb3⟩
    have h4 : step cfg (mkCode [LDC, a, LDC, b, ADD, HALT])
        { initState with pc := 5, sp := 1,
                         stack := upd (upd (upd initState.stack 0 a) 1 b) 0
                           (wrap cfg.w (b + a)) } = .halt (wrap cfg.w (b + a)) := by
      have he : execInstr cfg (mkCode [LDC, a, LDC, b, ADD, HALT])
          { initState with pc := 5, sp := 1,
                           stack := upd (upd (upd initState.stack 0 a) 1 b) 0
                             (wrap cfg.w (b + a)) } = .halt (wrap cfg.w (b + a)) := by
        rw [execInstr_HALT rfl]
        rfl
      simp only [step, he]
    calc run cfg (mkCode [LDC, a, LDC, b, ADD, HALT]) 4 initState
        = run cfg (mkCode [LDC, a, LDC, b, ADD, HALT]) 3
            { initState with pc := 2, sp := 1, stack := upd initState.stack 0 a } :=
          run_next _ _ 3 _ _ h1
      _ = run cfg (mkCode [LDC, a, LDC, b, ADD, HALT]) 2
            { initState with pc := 4, sp := 2,
                             stack := upd (upd initState.stack 0 a) 1 b } :=
          run_next _ _ 2 _ _ h2
      _ = run cfg (mkCode [LDC, a, LDC, b, ADD, HALT]) 1
            { initState with pc := 5, sp := 1,
                             stack := upd (upd (upd initState.stack 0 a) 1 b) 0
                               (wrap cfg.w (b + a)) } :=
          run_next _ _ 1 _ _ h3
      _ = some (.halt (wrap cfg.w (b + a))) := run_halt _ _ 0 _ _ h4
  · -- SUB
    have e3 : execInstr cfg (mkCode [LDC, a, LDC, b, SUB, HALT])
        { initState with pc := 4, sp := 2,
                         stack := upd (upd initState.stack 0 a) 1 b } = .next
        { initState with pc := 5, sp := 1,
                         stack := upd (upd (upd initState.stack 0 a) 1 b) 0
                           (wrap cfg.w (a - b)) } := by
      rw [execInstr_SUB rfl]
      rfl
    have cb3 : checkBounds cfg
        { initState with pc := 5, sp := 1,
                         stack := upd (upd (upd initState.stack 0 a) 1 b) 0
                           (wrap cfg.w (a - b)) } = true := by
      simp only [checkBounds, initState, decide_eq_true_eq]
      omega
    have h3 := step_next_iff.mpr ⟨e3, cb3⟩
    have h4 : step cfg (mkCode [LDC, a, LDC, b, SUB, HALT])
        { initState with pc := 5, sp := 1,
                         stack := upd (upd (upd initState.stack 0 a) 1 b) 0
                           (wrap cfg.w (a - b)) } = .halt (wrap cfg.w (a - b)) := by
      have he : execInstr cfg (mkCode [LDC, a, LDC, b, SUB, HALT])
          { initState with pc := 5, sp := 1,
                           stack := upd (upd (upd initState.stack 0 a) 1 b) 0
                             (wrap cfg.w (a - b)) } = .halt (wrap cfg.w (a - b)) := by
        rw [execInstr_HALT rfl]
        rfl
      simp only [step, he]
    calc run cfg (mkCode [LDC, a, LDC, b, SUB, HALT]) 4 initState
        = run cfg (mkCode [LDC, a, LDC, b, SUB, HALT]) 3
            { initState with pc := 2, sp := 1, stack := upd initState.stack 0 a } :=
          run_next _ _ 3 _ _ h1
      _ = run cfg (mkCode [LDC, a, LDC, b, SUB, HALT]) 2
            { initState with pc := 4, sp := 2,
                             stack := upd (upd initState.stack 0 a) 1 b } :=
          run_next _ _ 2 _ _ h2
      _ = run cfg (mkCode [LDC, a, LDC, b, SUB, HALT]) 1
            { initState with pc := 5, sp := 1,
                             stack := upd (upd (upd initState.stack 0 a) 1 b) 0
                               (wrap cfg.w (a - b)) } :=
          run_next _ _ 1 _ _ h3
      _ = some (.halt (wrap cfg.w (a - b))) := run_halt _ _ 0 _ _ h4
  · -- MUL
    have e3 : execInstr cfg (mkCode [LDC, a, LDC, b, MUL, HALT])
        { initState with pc := 4, sp := 2,
                         stack := upd (upd initState.stack 0 a) 1 b } = .next
        { initState with pc := 5, sp := 1,
                         stack := upd (upd (upd initState.stack 0 a) 1 b) 0
                           (wrap cfg.w (b * a)) } := by
      rw [execInstr_MUL rfl]
      rfl
    have cb3 : checkBounds cfg
        { initState with pc := 5, sp := 1,
                         stack := upd (upd (upd initState.stack 0 a) 1 b) 0
                           (wrap cfg.w (b * a)) } = true := by
      simp only [checkBounds, initState, decide_eq_true_eq]
      omega
    have h3 := step_next_iff.mpr ⟨e3, cb3⟩
    have h4 : step cfg (mkCode [LDC, a, LDC, b, MUL, HALT])
        { initState with pc := 5, sp := 1,
                         stack := upd (upd (upd initState.stack 0 a) 1 b) 0
                           (wrap cfg.w (b * a)) } = .halt (wrap cfg.w (b * a)) := by
      have he : execInstr cfg (mkCode [LDC, a, LDC, b, MUL, HALT])
          { initState with pc := 5, sp := 1,
                           stack := upd (upd (upd initState.stack 0 a) 1 b) 0
                             (wrap cfg.w (b * a)) } = .halt (wrap cfg.w (b * a)) := by
        rw [execInstr_HALT rfl]
        rfl
      simp only [step, he]
    calc run cfg (mkCode [LDC, a, LDC, b, MUL, HALT]) 4 initState
        = run cfg (mkCode [LDC, a, LDC, b, MUL, HALT]) 3
            { initState with pc := 2, sp := 1, stack := upd initState.stack 0 a } :=
          run_next _ _ 3 _ _ h1
      _ = run cfg (mkCode [LDC, a, LDC, b, MUL, HALT]) 2
            { initState with pc := 4, sp := 2,
                             stack := upd (upd initState.stack 0 a) 1 b } :=
          run_next _ _ 2 _ _ h2
      _ = run cfg (mkCode [LDC, a, LDC, b, MUL, HALT]) 1
            { initState with pc := 5, sp := 1,
                             stack := upd (upd (upd initState.stack 0 a) 1 b) 0
                               (wrap cfg.w (b * a)) } :=
          run_next _ _ 1 _ _ h3
      _ = some (.halt (wrap cfg.w (b * a))) := run_halt _ _ 0 _ _ h4

/-- C4: running `push a; push b; Subtract; Halt` yields `a - b` for all
machine-representable `a`, `b` with machine-representable difference: the
operand pushed later (`b`) is the subtrahend. -/
theorem C4_subtract_program (cfg : Config) (a b : Int) (hw : 1 ≤ cfg.w)
    (ha1 : -(2 ^ (cfg.w - 1)) ≤ a) (ha2 : a < 2 ^ (cfg.w - 1))
    (hb1 : -(2 ^ (cfg.w - 1)) ≤ b) (hb2 : b < 2 ^ (cfg.w - 1))
    (hd1 : -(2 ^ (cfg.w - 1)) ≤ a - b) (hd2 : a - b < 2 ^ (cfg.w - 1))
    (hS : 3 ≤ cfg.STACK_MAX) (hD : 1 ≤ cfg.DUMP_MAX) (hC : 6 ≤ cfg.CODE_MAX) :
    run cfg (mkCode [LDC, a, LDC, b, SUB, HALT]) 4 initState
      = some (.halt (a - b)) := by
  have h := run_binop_prog cfg SUB a b (wrap cfg.w (a - b)) hS hD hC
    (Or.inr (Or.inl ⟨rfl, rfl⟩))
  rw [h, wrap_eq_of_range cfg.w (a - b) hw hd1 hd2]

theorem C4_subtract_program_witness :
    run cfgW (mkCode [LDC, 10, LDC, 4, SUB, HALT]) 4 initState
      = some (.halt 6) := by
  have h := C4_subtract_program cfgW 10 4 (by norm_num [cfgW])
    (by norm_num [cfgW]) (by norm_num [cfgW]) (by norm_num [cfgW])
    (by norm_num [cfgW]) (by norm_num [cfgW]) (by norm_num [cfgW])
    (by norm_num [cfgW]) (by norm_num [cfgW]) (by norm_num [cfgW])
  simpa using h

/-- C10: `Add`, `Subtract` and `Multiply` compute `w`-bit machine-word
arithmetic: each halts with the `wrap`ped result, correct modulo `2^w`; and
the result is not unbounded integer arithmetic — multiplying the
representable operands `2^(w-1) - 1` and `2` does not yield their integer
product. -/
theorem C10_word_arithmetic (cfg : Config) (a b : Int) (hw : 3 ≤ cfg.w)
    (hS : 3 ≤ cfg.STACK_MAX) (hD : 1 ≤ cfg.DUMP_MAX) (hC : 6 ≤ cfg.CODE_MAX) :
    (run cfg (mkCode [LDC, a, LDC, b, ADD, HALT]) 4 initState
        = some (.halt (wrap cfg.w (b + a))) ∧
      wrap cfg.w (b + a) % 2 ^ cfg.w = (a + b) % 2 ^ cfg.w) ∧
    (run cfg (mkCode [LDC, a, LDC, b, SUB, HALT]) 4 initState
        = some (.halt (wrap cfg.w (a - b))) ∧
      wrap cfg.w (a - b) % 2 ^ cfg.w = (a - b) % 2 ^ cfg.w) ∧
    (run cfg (mkCode [LDC, a, LDC, b, MUL, HALT]) 4 initState
        = some (.halt (wrap cfg.w (b * a))) ∧
      wrap cfg.w (b * a) % 2 ^ cfg.w = (a * b) % 2 ^ cfg.w) ∧
    ¬ run cfg (mkCode [LDC, 2 ^ (cfg.w - 1) - 1, LDC, 2, MUL, HALT]) 4 initState
        = some (.halt ((2 ^ (cfg.w - 1) - 1) * 2)) := by
  refine ⟨⟨run_binop_prog cfg ADD a b _ hS hD hC (Or.inl ⟨rfl, rfl⟩), ?_⟩,
          ⟨run_binop_prog cfg SUB a b _ hS hD hC (Or.inr (Or.inl ⟨rfl, rfl⟩)), ?_⟩,
          ⟨run_binop_prog cfg MUL a b _ hS hD hC (Or.inr (Or.inr ⟨rfl, rfl⟩)), ?_⟩,
          ?_⟩
  · rw [wrap_emod, Int.add_comm]
  · rw [wrap_emod]
  · rw [wrap_emod, Int.mul_comm]
  · intro hc
    have hrun := run_binop_prog cfg MUL (2 ^ (cfg.w - 1) - 1) 2
      (wrap cfg.w (2 * (2 ^ (cfg.w - 1) - 1))) hS hD hC
      (Or.inr (Or.inr ⟨rfl, rfl⟩))
    rw [hrun] at hc
    simp only [Option.some.injEq, Outcome.halt.injEq] at hc
    have hm : (2 : Int) ^ cfg.w = 2 ^ (cfg.w - 1) * 2 := by
      conv_lhs => rw [show cfg.w = (cfg.w - 1) + 1 by omega]
      rw [pow_succ]
    have hA4 : (4 : Int) ≤ 2 ^ (cfg.w - 1) := by
      calc (4 : Int) = 2 ^ 2 := by norm_num
        _ ≤ 2 ^ (cfg.w - 1) := pow_le_pow_right₀ (by norm_num) (by omega)
    have hsplit : 2 * ((2 : Int) ^ (cfg.w - 1) - 1) + 2 ^ (cfg.w - 1)
        = (2 ^ (cfg.w - 1) - 2) + 2 ^ cfg.w * 1 := by
      rw [hm]; ring
    have hwv : wrap cfg.w (2 * (2 ^ (cfg.w - 1) - 1)) = -2 := by
      unfold wrap
      rw [hsplit, Int.add_mul_emod_self_left,
        Int.emod_eq_of_lt (by omega) (by rw [hm]; omega)]
      ring
    rw [hwv] at hc
    omega

theorem C10_word_arithmetic_witness :
    run cfgW (mkCode [LDC, 3, LDC, 5, ADD, HALT]) 4 initState
      = some (.halt 8) := by
  exact ((C10_word_arithmetic cfgW 3 5 (by norm_num [cfgW]) (by norm_num [cfgW])
    (by norm_num [cfgW]) (by norm_num [cfgW])).1).1

end SECD
